import Mathlib

/-!
Verification of the xml_to_csv path-extraction core.

The definitions below are a shallow embedding of `src/xml_path.rs` and the
`extract_from_xml` / `run` functions of `src/main.rs`, together with the small
slice of the `xmltree` collaborator interface that those functions consume
(children list, first-matching child element, attribute lookup, concatenated
direct text).  Machine integers (`usize`) are modelled as `Nat` with the
explicit bound `2 ^ 64` where Rust's parser can overflow; Rust panics are
modelled by an outer `Option` layer (`none` = panic).
-/

/-- Document node, mirroring `xmltree::XMLNode`: an element carries its tag
name, attribute list and child list; a text node carries its contents.
Comment / CData / processing-instruction kinds are omitted: the extractor
only ever distinguishes element children from non-element children, and
`text` already provides a non-element kind. -/
inductive XMLNode where
  | element (name : String) (attributes : List (String × String)) (children : List XMLNode)
  | text (s : String)

/-- Tag name of a node (elements only; text nodes have no tag). -/
def XMLNode.nodeName : XMLNode → String
  | .element n _ _ => n
  | .text _ => ""

/-- Attribute list of a node (empty for text nodes). -/
def XMLNode.attributes : XMLNode → List (String × String)
  | .element _ a _ => a
  | .text _ => []

/-- Direct children of a node (empty for text nodes). -/
def XMLNode.children : XMLNode → List XMLNode
  | .element _ _ c => c
  | .text _ => []

/-- Whether the node is an element node. -/
def XMLNode.isElement : XMLNode → Bool
  | .element _ _ _ => true
  | .text _ => false

/-- Embedding of `xmltree::XMLNode::as_element`: the node itself when it is
an element, `none` otherwise. -/
def XMLNode.as_element (n : XMLNode) : Option XMLNode :=
  if n.isElement then some n else none

/-- Embedding of `xmltree::Element::get_child` with a `&str` predicate: the
first direct child that is an element whose tag equals `name`. -/
def get_child (el : XMLNode) (name : String) : Option XMLNode :=
  el.children.find? (fun c => c.isElement && c.nodeName == name)

/-- Modelled from the spec's collaborator interface ("get concatenated direct
text"), matching `xmltree::Element::get_text`: concatenate the contents of
the direct text children; `none` when the concatenation is empty. -/
def get_text (el : XMLNode) : Option String :=
  let t := el.children.foldl
    (fun acc c => match c with | .text s => acc ++ s | _ => acc) ""
  if t = "" then none else some t

/-- One segment of a dotted path, mirroring `xml_path::PathPart`.  `Index`
holds a Rust `usize`, modelled as an unbounded `Nat`; every value the parser
can produce is `< 2 ^ 64`. -/
inductive PathPart where
  | Element (s : String)
  | Index (i : Nat)
deriving DecidableEq

/-- The parse error type of `xml_path.rs` (never actually produced). -/
inductive PathParseError where
  | EmptyPart
deriving DecidableEq

/-- Decimal digits of `n`, most significant first, with explicit fuel so the
definition reduces in the kernel; `natToStringAux (n + 1) n` is Rust's
`usize` `Display` rendering of `n`. -/
def natToStringAux : Nat → Nat → List Char
  | 0, _ => []
  | fuel + 1, n =>
    if n < 10 then [Nat.digitChar n]
    else natToStringAux fuel (n / 10) ++ [Nat.digitChar (n % 10)]

/-- Decimal rendering of a `usize`, as produced by `format!` / `to_string`. -/
def natToString (n : Nat) : String := ⟨natToStringAux (n + 1) n⟩

/-- Rendering of one path segment, as in `Path::parts_to_string`'s loop body. -/
def renderPart : PathPart → List Char
  | .Element s => s.data
  | .Index i => natToStringAux (i + 1) i

/-- Characters of the serialized path: segment renderings joined by `'.'`,
mirroring the loop of `Path::parts_to_string` (a separator after every
segment except the last). -/
def partsToChars : List PathPart → List Char
  | [] => []
  | [p] => renderPart p
  | p :: q :: rest => renderPart p ++ '.' :: partsToChars (q :: rest)

/-- Embedding of `Path::parts_to_string` (also `Path::to_string`). -/
def Path.parts_to_string (parts : List PathPart) : String := ⟨partsToChars parts⟩

/-- Strip one leading `'+'` sign, as `usize::from_str` accepts. -/
def stripPlus : List Char → List Char
  | [] => []
  | c :: rest => if c = '+' then rest else c :: rest

/-- Numeric value of a digit character. -/
def digitVal (c : Char) : Nat := c.toNat - 48

/-- Value of a digit string, most significant first. -/
def valOfDigits (ds : List Char) : Nat :=
  ds.foldl (fun a c => a * 10 + digitVal c) 0

/-- Embedding of `usize::from_str` (64-bit): an optional leading `'+'`
followed by one or more ASCII digits, rejected on overflow past
`usize::MAX = 2 ^ 64 - 1`. -/
def fromStrUsize (cs : List Char) : Option Nat :=
  let ds := stripPlus cs
  if ds.isEmpty then none
  else if ds.all Char.isDigit then
    let v := valOfDigits ds
    if v < 2 ^ 64 then some v else none
  else none

/-- Splitting on `'.'`, as Rust's `str::split('.')`: always at least one
piece, empty pieces kept. -/
def splitDot : List Char → List (List Char)
  | [] => [[]]
  | c :: rest =>
    if c = '.' then [] :: splitDot rest
    else
      match splitDot rest with
      | [] => [[c]]
      | h :: t => (c :: h) :: t

/-- Classification of one dot-separated token, as in the loop body of
`TryFrom<&str> for Path`: `usize::from_str(part).map(Index).unwrap_or(Element part)`. -/
def classifyPart (cs : List Char) : PathPart :=
  match fromStrUsize cs with
  | some i => .Index i
  | none => .Element ⟨cs⟩

/-- Embedding of `TryFrom<&str> for Path`: split on `'.'`, classify each
token, always `Ok`. -/
def Path.tryFrom (s : String) : Except PathParseError (List PathPart) :=
  .ok ((splitDot s.data).map classifyPart)

/-- A path together with its extraction mode, mirroring `xml_path::PathType`. -/
inductive PathType where
  | PathText (parts : List PathPart)
  | PathLen (parts : List PathPart)
  | PathAttr (parts : List PathPart)
deriving DecidableEq

/-- The underlying segment list of a `PathType`. -/
def PathType.parts : PathType → List PathPart
  | .PathText p => p
  | .PathLen p => p
  | .PathAttr p => p

/-- The extraction failures of `extract_from_xml`, one constructor per
`format!` site in `src/main.rs`, carrying the data interpolated there. -/
inductive ExtractionError where
  | NodeNotFound (name : String) (path : String)
  | IndexOutOfRange (i : Nat)
  | NotAnElement (i : Nat)
  | NoTextContent (path : String)
  | AttributeNotFound (path : String)
  | IndexUsedAsAttributeName
  | EmptyPath
deriving DecidableEq

/-- The traversal loop of `extract_from_xml` (`for part in parts`): follow
each segment into a child node; `ps` is the serialized full path used in the
`NodeNotFound` message. -/
def followPath (element : XMLNode) (parts : List PathPart) (ps : String) :
    Except ExtractionError XMLNode :=
  match parts with
  | [] => .ok element
  | .Element node_name :: rest =>
    match get_child element node_name with
    | some child => followPath child rest ps
    | none => .error (.NodeNotFound node_name ps)
  | .Index index :: rest =>
    match element.children[index]? with
    | none => .error (.IndexOutOfRange index)
    | some v =>
      match v.as_element with
      | none => .error (.NotAnElement index)
      | some child => followPath child rest ps

/-- Embedding of `extract_from_xml`.  The outer `Option` models panics:
`none` is the panic of the slice `&path.parts[..path.parts.len() - 1]` when
the parts vector is empty (usize underflow / out-of-bounds slice). -/
def extract_from_xml (xml : XMLNode) (xml_path : PathType) :
    Option (Except ExtractionError String) :=
  let follow_last : Bool :=
    match xml_path with
    | .PathText _ => true
    | .PathLen _ => true
    | .PathAttr _ => false
  let path := xml_path.parts
  let partsOpt : Option (List PathPart) :=
    if follow_last then some path
    else if path.isEmpty then none else some path.dropLast
  match partsOpt with
  | none => none
  | some parts =>
    match followPath xml parts (Path.parts_to_string path) with
    | .error e => some (.error e)
    | .ok element =>
      match xml_path with
      | .PathText _ =>
        some (match get_text element with
          | some t => .ok t
          | none => .error (.NoTextContent (Path.parts_to_string path)))
      | .PathLen _ => some (.ok (natToString element.children.length))
      | .PathAttr _ =>
        match path.getLast? with
        | none => some (.error .EmptyPath)
        | some (.Element name) =>
          some (match element.attributes.lookup name with
            | some v => .ok v
            | none => .error (.AttributeNotFound (Path.parts_to_string path)))
        | some (.Index _) => some (.error .IndexUsedAsAttributeName)

/-- Column sources, mirroring `config::ColumnType` (the single `Intrinsic`
kind `FilePath` is inlined into the `Intrinsic` constructor). -/
inductive ColumnType where
  | ExtractXmlPath (path : PathType) (dflt : Option String)
  | Text (text : String)
  | Intrinsic

/-- An unrecovered extraction failure as surfaced by `run`: the
`format!("Failed to extract column from xml file '{}': {e}", item.path())`
message, i.e. the extraction error annotated with the document identity. -/
structure ResolveError where
  doc : String
  err : ExtractionError
deriving DecidableEq

/-- The per-column body of `run`'s inner loop: on `ExtractXmlPath`, call
`extract_from_xml`; with a default configured, `res.map(..).unwrap_or(default)`;
without one, propagate the error annotated with the document identity.
`Text` and `Intrinsic FilePath` always succeed.  The outer `Option` again
models panics, propagated from `extract_from_xml`. -/
def resolveColumn (xml : XMLNode) (docId : String) :
    ColumnType → Option (Except ResolveError String)
  | .ExtractXmlPath path dflt =>
    (extract_from_xml xml path).map fun res =>
      match dflt with
      | some d =>
        .ok (match res with
          | .ok v => v
          | .error _ => d)
      | none =>
        match res with
        | .ok v => .ok v
        | .error e => .error ⟨docId, e⟩
  | .Text t => some (.ok t)
  | .Intrinsic => some (.ok docId)

/-- One document's pass through `run`'s column loop: resolve every column in
configuration order; the first unrecovered error aborts via `?`. -/
def resolveRow (docId : String) (xml : XMLNode) :
    List ColumnType → Option (Except ResolveError (List String))
  | [] => some (.ok [])
  | c :: rest =>
    match resolveColumn xml docId c with
    | none => none
    | some (.error e) => some (.error e)
    | some (.ok v) =>
      match resolveRow docId xml rest with
      | none => none
      | some (.error e) => some (.error e)
      | some (.ok vs) => some (.ok (v :: vs))

/-- The document loop of `run`, at the abstraction level of the spec's
row-emission interface: each document is a `(identity, parsed tree)` pair;
the result is the list of fully resolved rows written before the run ended,
plus the aborting `ResolveError` if one occurred (`?` in the loop body ends
the whole run).  Buffered CSV I/O is plumbing outside this model. -/
def runDocs (cols : List ColumnType) :
    List (String × XMLNode) → Option (List (List String) × Option ResolveError)
  | [] => some ([], none)
  | (docId, xml) :: rest =>
    match resolveRow docId xml cols with
    | none => none
    | some (.error e) => some ([], some e)
    | some (.ok row) =>
      match runDocs cols rest with
      | none => none
      | some (rows, err) => some (row :: rows, err)

/-- The named-child predicate of `xmltree::Element::get_child` with a `&str`
argument: a direct child that is an element whose tag equals `name`. -/
def IsNamedElement (name : String) (c : XMLNode) : Prop :=
  c.isElement = true ∧ c.nodeName = name

instance (name : String) (c : XMLNode) : Decidable (IsNamedElement name c) :=
  inferInstanceAs (Decidable (_ ∧ _))

/-- Claim C3's classification predicate, following the spec's words: "the
token parses as a non-negative base-10 integer with no extraneous
characters", i.e. the token is one or more ASCII digits and nothing else,
denoting the value `v`. -/
def IsPlainNumeral (cs : List Char) (v : Nat) : Prop :=
  cs ≠ [] ∧ (∀ c ∈ cs, c.isDigit = true) ∧ valOfDigits cs = v

instance (cs : List Char) (v : Nat) : Decidable (IsPlainNumeral cs v) :=
  inferInstanceAs (Decidable (_ ∧ _ ∧ _))

/-- What `usize::from_str` actually accepts: an optional leading `'+'`
followed by one or more ASCII digits, whose value fits in 64 bits. -/
def IsUsizeNumeral (cs : List Char) (v : Nat) : Prop :=
  ∃ ds : List Char, (cs = ds ∨ cs = '+' :: ds) ∧ ds ≠ [] ∧
    (∀ c ∈ ds, c.isDigit = true) ∧ valOfDigits ds = v ∧ v < 2 ^ 64

deriving instance DecidableEq for Except

/-! ### Helper lemmas -/

theorem splitDot_ne_nil (cs : List Char) : splitDot cs ≠ [] := by
  induction cs with
  | nil => simp [splitDot]
  | cons c rest ih =>
    by_cases h : c = '.'
    · simp [splitDot, h]
    · simp only [splitDot, if_neg h]
      cases hs : splitDot rest <;> simp

theorem tryFrom_parts_ne_nil (s : String) (parts : List PathPart)
    (h : Path.tryFrom s = .ok parts) : parts ≠ [] := by
  simp only [Path.tryFrom, Except.ok.injEq] at h
  subst h
  simp only [ne_eq, List.map_eq_nil_iff]
  exact splitDot_ne_nil _

theorem followPath_ne_emptyPath (parts : List PathPart) (el : XMLNode) (ps : String) :
    followPath el parts ps ≠ .error .EmptyPath := by
  induction parts generalizing el with
  | nil => simp [followPath]
  | cons p rest ih =>
    cases p with
    | Element name =>
      cases h : get_child el name with
      | none => simp [followPath, h]
      | some child => simpa [followPath, h] using ih child
    | Index i =>
      cases h : el.children[i]? with
      | none => simp [followPath, h]
      | some v =>
        cases hv : v.as_element with
        | none => simp [followPath, h, hv]
        | some child => simpa [followPath, h, hv] using ih child

theorem resolveRow_ok_length (docId : String) (xml : XMLNode)
    (cols : List ColumnType) (row : List String)
    (h : resolveRow docId xml cols = some (.ok row)) : row.length = cols.length := by
  induction cols generalizing row with
  | nil =>
    simp only [resolveRow, Option.some.injEq, Except.ok.injEq] at h
    subst h; rfl
  | cons c rest ih =>
    simp only [resolveRow] at h
    cases h1 : resolveColumn xml docId c with
    | none => rw [h1] at h; cases h
    | some r1 =>
      cases r1 with
      | error e => rw [h1] at h; cases h
      | ok v =>
        rw [h1] at h
        cases h2 : resolveRow docId xml rest with
        | none => rw [h2] at h; cases h
        | some r2 =>
          cases r2 with
          | error e => rw [h2] at h; cases h
          | ok vs =>
            rw [h2] at h
            simp only [Option.some.injEq, Except.ok.injEq] at h
            subst h
            simpa using ih vs h2

theorem digitChar_isDigit (n : Nat) (h : n < 10) : (Nat.digitChar n).isDigit = true := by
  interval_cases n <;> decide

theorem digitChar_val (n : Nat) (h : n < 10) : digitVal (Nat.digitChar n) = n := by
  interval_cases n <;> decide

theorem valOfDigits_append_digit (ds : List Char) (c : Char) :
    valOfDigits (ds ++ [c]) = valOfDigits ds * 10 + digitVal c := by
  simp [valOfDigits, List.foldl_append]

theorem natToStringAux_spec (fuel : Nat) :
    ∀ n, 0 < fuel → n < 10 ^ fuel →
      natToStringAux fuel n ≠ [] ∧
      (∀ c ∈ natToStringAux fuel n, c.isDigit = true) ∧
      valOfDigits (natToStringAux fuel n) = n := by
  induction fuel with
  | zero => intro n h _; exact absurd h (by omega)
  | succ f ih =>
    intro n _ hn
    by_cases h10 : n < 10
    · refine ⟨by simp [natToStringAux, h10], ?_, ?_⟩
      · intro c hc
        simp only [natToStringAux, if_pos h10, List.mem_singleton] at hc
        subst hc
        exact digitChar_isDigit n h10
      · simp only [natToStringAux, if_pos h10]
        have := digitChar_val n h10
        simp [valOfDigits]
        omega
    · have hf : 0 < f := by
        rcases Nat.eq_zero_or_pos f with hf0 | hf
        · subst hf0; simp at hn; omega
        · exact hf
      have hdiv : n / 10 < 10 ^ f := by
        apply Nat.div_lt_of_lt_mul
        rw [pow_succ] at hn
        omega
      obtain ⟨hne, hdig, hval⟩ := ih (n / 10) hf hdiv
      refine ⟨by simp [natToStringAux, if_neg h10], ?_, ?_⟩
      · intro c hc
        simp only [natToStringAux, if_neg h10, List.mem_append, List.mem_singleton] at hc
        rcases hc with hc | hc
        · exact hdig c hc
        · subst hc
          exact digitChar_isDigit (n % 10) (Nat.mod_lt n (by omega))
      · simp only [natToStringAux, if_neg h10]
        rw [valOfDigits_append_digit, hval, digitChar_val (n % 10) (Nat.mod_lt n (by omega))]
        omega

theorem natDigits_spec (n : Nat) :
    natToStringAux (n + 1) n ≠ [] ∧
    (∀ c ∈ natToStringAux (n + 1) n, c.isDigit = true) ∧
    valOfDigits (natToStringAux (n + 1) n) = n :=
  natToStringAux_spec (n + 1) n (Nat.succ_pos n)
    (lt_of_lt_of_le (Nat.lt_pow_self (by norm_num) n)
      (Nat.pow_le_pow_right (by norm_num) (Nat.le_succ n)))

theorem stripPlus_cases (cs : List Char) : cs = stripPlus cs ∨ cs = '+' :: stripPlus cs := by
  cases cs with
  | nil => left; rfl
  | cons c rest =>
    by_cases h : c = '+'
    · subst h; right; simp [stripPlus]
    · left; simp [stripPlus, h]

theorem stripPlus_of_digits (ds : List Char) (hne : ds ≠ [])
    (hdig : ∀ c ∈ ds, c.isDigit = true) : stripPlus ds = ds := by
  cases ds with
  | nil => exact absurd rfl hne
  | cons c rest =>
    have hc : c.isDigit = true := hdig c (List.mem_cons_self c rest)
    have : c ≠ '+' := by
      intro h; subst h; simp [Char.isDigit] at hc
    simp [stripPlus, this]

theorem fromStrUsize_eq_some_iff (cs : List Char) (v : Nat) :
    fromStrUsize cs = some v ↔ IsUsizeNumeral cs v := by
  constructor
  · intro h
    simp only [fromStrUsize] at h
    by_cases he : (stripPlus cs).isEmpty
    · simp [he] at h
    · by_cases hd : (stripPlus cs).all Char.isDigit
      · by_cases hv : valOfDigits (stripPlus cs) < 2 ^ 64
        · simp only [he, hd, hv, if_true, if_false, Bool.false_eq_true,
            Option.some.injEq] at h
          exact ⟨stripPlus cs, stripPlus_cases cs,
            by simpa [List.isEmpty_iff] using he,
            List.all_eq_true.mp hd, h, h ▸ hv⟩
        · rw [if_neg he, if_pos hd, if_neg hv] at h
          cases h
      · simp [he, hd] at h
  · rintro ⟨ds, hcs, hne, hdig, hval, hlt⟩
    have hstrip : stripPlus cs = ds := by
      rcases hcs with hcs | hcs
      · subst hcs; exact stripPlus_of_digits _ hne hdig
      · subst hcs; simp [stripPlus]
    rw [show fromStrUsize cs = (if (stripPlus cs).isEmpty then none
        else if (stripPlus cs).all Char.isDigit then
          (if valOfDigits (stripPlus cs) < 2 ^ 64 then some (valOfDigits (stripPlus cs)) else none)
        else none) from rfl, hstrip]
    rw [if_neg (by simpa [List.isEmpty_iff] using hne), if_pos (List.all_eq_true.mpr hdig),
      hval, if_pos hlt]

theorem splitDot_no_dot (cs : List Char) (h : '.' ∉ cs) : splitDot cs = [cs] := by
  induction cs with
  | nil => rfl
  | cons c rest ih =>
    have hc : c ≠ '.' := fun hx => h (hx ▸ List.mem_cons_self c rest)
    have hr : '.' ∉ rest := fun hx => h (List.mem_cons_of_mem c hx)
    simp only [splitDot, if_neg hc, ih hr]

theorem splitDot_append (a b : List Char) (h : '.' ∉ a) :
    splitDot (a ++ '.' :: b) = a :: splitDot b := by
  induction a with
  | nil => simp [splitDot]
  | cons c rest ih =>
    have hc : c ≠ '.' := fun hx => h (hx ▸ List.mem_cons_self c rest)
    have hr : '.' ∉ rest := fun hx => h (List.mem_cons_of_mem c hx)
    simp only [List.cons_append, splitDot, if_neg hc]
    rw [show rest.append ('.' :: b) = rest ++ '.' :: b from rfl, ih hr]

theorem classifyPart_index (i : Nat) (hi : i < 2 ^ 64) :
    classifyPart (natToStringAux (i + 1) i) = .Index i := by
  obtain ⟨hne, hdig, hval⟩ := natDigits_spec i
  have : fromStrUsize (natToStringAux (i + 1) i) = some i :=
    (fromStrUsize_eq_some_iff _ i).mpr ⟨_, Or.inl rfl, hne, hdig, hval, hi⟩
  simp [classifyPart, this]

theorem classifyPart_element (s : String) (hs : fromStrUsize s.data = none) :
    classifyPart s.data = .Element s := by
  simp [classifyPart, hs]

theorem extract_text_eq (xml : XMLNode) (parts : List PathPart) :
    extract_from_xml xml (.PathText parts) =
      (match followPath xml parts (Path.parts_to_string parts) with
        | .error e => some (.error e)
        | .ok element =>
          some (match get_text element with
            | some t => .ok t
            | none => .error (.NoTextContent (Path.parts_to_string parts)))) := rfl

theorem extract_len_eq (xml : XMLNode) (parts : List PathPart) :
    extract_from_xml xml (.PathLen parts) =
      (match followPath xml parts (Path.parts_to_string parts) with
        | .error e => some (.error e)
        | .ok element => some (.ok (natToString element.children.length))) := rfl

theorem extract_attr_panic (xml : XMLNode) :
    extract_from_xml xml (.PathAttr []) = none := rfl

theorem extract_attr_eq (xml : XMLNode) (parts : List PathPart) (h : parts ≠ []) :
    extract_from_xml xml (.PathAttr parts) =
      (match followPath xml parts.dropLast (Path.parts_to_string parts) with
        | .error e => some (.error e)
        | .ok element =>
          match parts.getLast? with
          | none => some (.error .EmptyPath)
          | some (.Element name) =>
            some (match element.attributes.lookup name with
              | some v => .ok v
              | none => .error (.AttributeNotFound (Path.parts_to_string parts)))
          | some (.Index _) => some (.error .IndexUsedAsAttributeName)) := by
  have hne : parts.isEmpty = false := by simp [List.isEmpty_iff, h]
  simp only [extract_from_xml, PathType.parts, hne, Bool.false_eq_true, if_false]

theorem renderPart_no_dot (p : PathPart)
    (hname : ∀ s, p = .Element s → '.' ∉ s.data) : '.' ∉ renderPart p := by
  cases p with
  | Element s => exact hname s rfl
  | Index i =>
    intro hmem
    have hdig := (natDigits_spec i).2.1 '.' hmem
    simp [Char.isDigit] at hdig

theorem namedPred_iff (name : String) (c : XMLNode) :
    (c.isElement && c.nodeName == name) = true ↔ IsNamedElement name c := by
  simp [IsNamedElement, Bool.and_eq_true, beq_iff_eq]

theorem classify_renderPart (x : PathPart)
    (h1 : ∀ s, x = .Element s → fromStrUsize s.data = none)
    (h2 : ∀ i, x = .Index i → i < 2 ^ 64) :
    classifyPart (renderPart x) = x := by
  cases x with
  | Element s => exact classifyPart_element s (h1 s rfl)
  | Index i => exact classifyPart_index i (h2 i rfl)

/-! ### Claim theorems -/

/-- Document `<root><item id="7">hi</item></root>` as parsed by `xmltree`:
the text `hi` is represented as a child node of `item`. -/
def C7doc : XMLNode :=
  .element "root" [] [.element "item" [("id", "7")] [.text "hi"]]

/-- C7 (counterexample): on `<root><item id="7">hi</item></root>`, `Len`
extraction at path `item` yields `"1"` — the text `hi` is a direct child
node of `item` and `Len` counts all child kinds — not `"0"` as the claim
states. -/
theorem c7_counterexample :
    Path.tryFrom "item" = .ok [PathPart.Element "item"] ∧
    extract_from_xml C7doc (.PathLen [.Element "item"]) = some (.ok "1") ∧
    extract_from_xml C7doc (.PathLen [.Element "item"]) ≠ some (.ok "0") :=
  ⟨rfl, rfl, by decide⟩

/-- C7 (amended): for the document tree `<root><item id="7">hi</item></root>`,
path `item.id` in `Attr` mode yields `"7"`, path `item` in `Text` mode yields
`"hi"`, and path `item` in `Len` mode yields `"1"` (the text `hi` is a child
node, and `Len` counts children of all kinds). -/
theorem c7_amended :
    Path.tryFrom "item.id" = .ok [PathPart.Element "item", PathPart.Element "id"] ∧
    extract_from_xml C7doc (.PathAttr [.Element "item", .Element "id"]) = some (.ok "7") ∧
    Path.tryFrom "item" = .ok [PathPart.Element "item"] ∧
    extract_from_xml C7doc (.PathText [.Element "item"]) = some (.ok "hi") ∧
    extract_from_xml C7doc (.PathLen [.Element "item"]) = some (.ok "1") :=
  ⟨rfl, rfl, rfl, rfl, rfl⟩

/-- C8: every segment list produced by `parse` is non-empty, and parsing the
empty string yields exactly one segment, the empty-name element lookup. -/
theorem c8_nonempty_invariant :
    (∀ (s : String) (parts : List PathPart), Path.tryFrom s = .ok parts → parts ≠ []) ∧
    Path.tryFrom "" = .ok [PathPart.Element ""] :=
  ⟨tryFrom_parts_ne_nil, rfl⟩

/-- Witness for C8 at the concrete input `"a.b"`. -/
theorem c8_nonempty_invariant_witness :
    Path.tryFrom "a.b" = .ok [PathPart.Element "a", PathPart.Element "b"] ∧
    ([PathPart.Element "a", PathPart.Element "b"] : List PathPart) ≠ [] :=
  ⟨rfl, c8_nonempty_invariant.1 "a.b" _ rfl⟩

/-- C3 (counterexample): the claimed classification rule — `Index` iff the
token is a bare non-negative base-10 numeral — does not match the code.
`usize::from_str` also accepts a leading `'+'`, so `"+1"` is classified
`Index 1` although it is not a plain numeral (the claim would make it an
`ElementName`); and it rejects numerals `≥ 2 ^ 64` on overflow, so the plain
numeral `"18446744073709551616"` (= `2 ^ 64`) is classified `ElementName`
although the claim would make it an `Index`. -/
theorem c3_counterexample :
    Path.tryFrom "+1" = .ok [PathPart.Index 1] ∧
    ¬ IsPlainNumeral "+1".data 1 ∧
    Path.tryFrom "18446744073709551616" = .ok [PathPart.Element "18446744073709551616"] ∧
    IsPlainNumeral "18446744073709551616".data (2 ^ 64) :=
  ⟨rfl, by decide, rfl, by decide⟩

/-- C3 (amended): `parse` is total — it splits the input on `'.'` and
classifies every token, never failing; a token is classified `Index v`
exactly when `usize::from_str` accepts it, i.e. when it is an optional
leading `'+'` followed by one or more ASCII digits whose value `v` is below
`2 ^ 64`, and is classified `ElementName` (with its literal text) otherwise;
in particular `parse("a.1.b") = [ElementName "a", Index 1, ElementName "b"]`. -/
theorem c3_amended :
    (∀ s : String, ∃ parts, Path.tryFrom s = .ok parts ∧
        parts = (splitDot s.data).map classifyPart) ∧
    (∀ (cs : List Char) (v : Nat), classifyPart cs = .Index v ↔ IsUsizeNumeral cs v) ∧
    (∀ cs : List Char, classifyPart cs = .Element ⟨cs⟩ ↔ ∀ v, ¬ IsUsizeNumeral cs v) ∧
    Path.tryFrom "a.1.b" = .ok [PathPart.Element "a", PathPart.Index 1, PathPart.Element "b"] := by
  refine ⟨fun s => ⟨_, rfl, rfl⟩, ?_, ?_, rfl⟩
  · intro cs v
    constructor
    · intro h
      cases hf : fromStrUsize cs with
      | none => simp [classifyPart, hf] at h
      | some i =>
        simp only [classifyPart, hf, PathPart.Index.injEq] at h
        subst h
        exact (fromStrUsize_eq_some_iff cs i).mp hf
    · intro h
      have := (fromStrUsize_eq_some_iff cs v).mpr h
      simp [classifyPart, this]
  · intro cs
    constructor
    · intro h v hv
      have := (fromStrUsize_eq_some_iff cs v).mpr hv
      simp [classifyPart, this] at h
    · intro h
      cases hf : fromStrUsize cs with
      | none => simp [classifyPart, hf]
      | some i => exact absurd ((fromStrUsize_eq_some_iff cs i).mp hf) (h i)

/-- Witness for C3 (amended) at concrete inputs: the token `"+7"` is accepted
by the amended rule and classified `Index 7`. -/
theorem c3_amended_witness :
    classifyPart "+7".data = PathPart.Index 7 ∧
    Path.tryFrom "q" = .ok [PathPart.Element "q"] := by
  have hnum : IsUsizeNumeral "+7".data 7 :=
    ⟨['7'], Or.inr rfl, by decide, by decide, by decide, by decide⟩
  exact ⟨(c3_amended.2.1 "+7".data 7).mpr hnum, rfl⟩

/-- C6: once traversal has reached a node, `Len` extraction never fails and
returns the decimal rendering of the number of direct children of that node,
counting children of every kind; on a node with two element children and one
text child it returns `"3"`. -/
theorem c6_len_counts_all_children (xml el : XMLNode) (parts : List PathPart) :
    (followPath xml parts (Path.parts_to_string parts) = .ok el →
        extract_from_xml xml (.PathLen parts) = some (.ok (natToString el.children.length))) ∧
    (∀ (n : String) (attrs : List (String × String)) (c1 c2 : XMLNode) (t : String),
        c1.isElement = true → c2.isElement = true →
        extract_from_xml (.element n attrs [c1, c2, .text t]) (.PathLen []) = some (.ok "3")) := by
  constructor
  · intro h
    rw [extract_len_eq, h]
  · intro n attrs c1 c2 t _ _
    rfl

/-- Witness for C6 at a concrete document: `Len` at the root of
`<r><a/><b/>text</r>` returns `"3"`. -/
theorem c6_len_counts_all_children_witness :
    extract_from_xml (.element "r" [] [.element "a" [] [], .element "b" [] [], .text "tx"])
        (.PathLen []) = some (.ok "3") ∧
    extract_from_xml (.element "r" [] [.element "a" [] [], .element "b" [] [], .text "tx"])
        (.PathLen []) = some (.ok (natToString
          (XMLNode.element "r" [] [.element "a" [] [], .element "b" [] [], .text "tx"]).children.length)) := by
  constructor
  · exact (c6_len_counts_all_children (.element "r" [] []) (.element "r" [] []) []).2
      "r" [] (.element "a" [] []) (.element "b" [] []) "tx" rfl rfl
  · exact (c6_len_counts_all_children
      (.element "r" [] [.element "a" [] [], .element "b" [] [], .text "tx"])
      (.element "r" [] [.element "a" [] [], .element "b" [] [], .text "tx"]) []).1 rfl

/-- C1: one traversal step, for any current node and next segment.
`ElementName(name)` moves to the first direct child that is an element with
tag `name` — later same-named siblings are never visited — and fails with
`NodeNotFound` when no such child exists.  `Index(i)` moves to the `i`-th
direct child counting children of all kinds, fails with `IndexOutOfRange`
when `i` is out of bounds, and fails with `NotAnElement` when the `i`-th
child exists but is not an element. -/
theorem c1_traversal_step (el : XMLNode) (name : String) (i : Nat)
    (rest : List PathPart) (ps : String) :
    ((∀ c ∈ el.children, ¬ IsNamedElement name c) →
        followPath el (.Element name :: rest) ps = .error (.NodeNotFound name ps)) ∧
    (∀ pre c post, el.children = pre ++ c :: post → IsNamedElement name c →
        (∀ c' ∈ pre, ¬ IsNamedElement name c') →
        followPath el (.Element name :: rest) ps = followPath c rest ps) ∧
    (el.children.length ≤ i →
        followPath el (.Index i :: rest) ps = .error (.IndexOutOfRange i)) ∧
    (∀ c, el.children[i]? = some c → c.isElement = false →
        followPath el (.Index i :: rest) ps = .error (.NotAnElement i)) ∧
    (∀ c, el.children[i]? = some c → c.isElement = true →
        followPath el (.Index i :: rest) ps = followPath c rest ps) := by
  refine ⟨?_, ?_, ?_, ?_, ?_⟩
  · intro h
    have hnone : get_child el name = none :=
      List.find?_eq_none.mpr fun x hx hp => h x hx ((namedPred_iff name x).mp hp)
    simp [followPath, hnone]
  · intro pre c post hsplit hc hpre
    have hsome : get_child el name = some c := by
      rw [get_child, hsplit, List.find?_append]
      rw [List.find?_eq_none.mpr fun x hx hp => hpre x hx ((namedPred_iff name x).mp hp)]
      rw [Option.none_or]
      exact List.find?_cons_of_pos _ ((namedPred_iff name c).mpr hc)
    simp [followPath, hsome]
  · intro h
    have hnone : el.children[i]? = none := List.getElem?_eq_none h
    simp [followPath, hnone]
  · intro c hc hic
    have : c.as_element = none := by simp [XMLNode.as_element, hic]
    simp [followPath, hc, this]
  · intro c hc hic
    have : c.as_element = some c := by simp [XMLNode.as_element, hic]
    simp [followPath, hc, this]

/-- Witness for C1 on the concrete document
`<r>t<a k="v"/><a>u</a></r>`: `a` selects the first of the two `a`
children, index `0` hits the text child and fails with `NotAnElement 0`,
index `5` is out of bounds, and `b` is not found. -/
theorem c1_traversal_step_witness :
    followPath (.element "r" [] [.text "t", .element "a" [("k", "v")] [],
        .element "a" [] [.text "u"]]) [.Element "a"] "p" =
      .ok (.element "a" [("k", "v")] []) ∧
    followPath (.element "r" [] [.text "t", .element "a" [("k", "v")] [],
        .element "a" [] [.text "u"]]) [.Index 0] "p" = .error (.NotAnElement 0) ∧
    followPath (.element "r" [] [.text "t", .element "a" [("k", "v")] [],
        .element "a" [] [.text "u"]]) [.Index 5] "p" = .error (.IndexOutOfRange 5) ∧
    followPath (.element "r" [] [.text "t", .element "a" [("k", "v")] [],
        .element "a" [] [.text "u"]]) [.Element "b"] "p" = .error (.NodeNotFound "b" "p") := by
  refine ⟨?_, ?_, ?_, ?_⟩
  · exact (c1_traversal_step _ "a" 0 [] "p").2.1 [.text "t"] (.element "a" [("k", "v")] [])
      [.element "a" [] [.text "u"]] rfl (by decide) (by decide)
  · exact (c1_traversal_step _ "a" 0 [] "p").2.2.2.1 (.text "t") rfl rfl
  · exact (c1_traversal_step _ "a" 5 [] "p").2.2.1 (by decide)
  · exact (c1_traversal_step _ "b" 0 [] "p").1 (by decide)

/-- C2: in `Attr` mode with a non-empty path, only the prefix without the
last segment is traversed (a failure of that prefix traversal is the
result); once the prefix traversal succeeds, a final `Index` segment fails
with `IndexUsedAsAttributeName` regardless of the children of the reached
node, and a final `ElementName attrName` segment reads attribute `attrName`
of the reached node, failing with `AttributeNotFound` when it is absent. -/
theorem c2_attr_mode (xml el : XMLNode) (parts : List PathPart) (hne : parts ≠ []) :
    (∀ e, followPath xml parts.dropLast (Path.parts_to_string parts) = .error e →
        extract_from_xml xml (.PathAttr parts) = some (.error e)) ∧
    (followPath xml parts.dropLast (Path.parts_to_string parts) = .ok el →
      (∀ i, parts.getLast? = some (.Index i) →
          extract_from_xml xml (.PathAttr parts) = some (.error .IndexUsedAsAttributeName)) ∧
      (∀ a, parts.getLast? = some (.Element a) →
          extract_from_xml xml (.PathAttr parts) =
            some (match el.attributes.lookup a with
              | some v => .ok v
              | none => .error (.AttributeNotFound (Path.parts_to_string parts))))) := by
  constructor
  · intro e he
    rw [extract_attr_eq xml parts hne, he]
  · intro hok
    constructor
    · intro i hi
      rw [extract_attr_eq xml parts hne, hok, hi]
    · intro a ha
      rw [extract_attr_eq xml parts hne, hok, ha]

/-- Witness for C2 on `<root><item id="7">hi</item></root>`: path `item.id`
reads the attribute, path `item.0` fails with `IndexUsedAsAttributeName`
even though `item` does have a child at index `0`, and path `item.nope`
fails with `AttributeNotFound`. -/
theorem c2_attr_mode_witness :
    extract_from_xml C7doc (.PathAttr [.Element "item", .Element "id"]) = some (.ok "7") ∧
    extract_from_xml C7doc (.PathAttr [.Element "item", .Index 0]) =
      some (.error .IndexUsedAsAttributeName) ∧
    extract_from_xml C7doc (.PathAttr [.Element "item", .Element "nope"]) =
      some (.error (.AttributeNotFound (Path.parts_to_string [.Element "item", .Element "nope"]))) := by
  refine ⟨?_, ?_, ?_⟩
  · exact ((c2_attr_mode C7doc (.element "item" [("id", "7")] [.text "hi"])
      [.Element "item", .Element "id"] (by decide)).2 rfl).2 "id" rfl
  · exact ((c2_attr_mode C7doc (.element "item" [("id", "7")] [.text "hi"])
      [.Element "item", .Index 0] (by decide)).2 rfl).1 0 rfl
  · exact ((c2_attr_mode C7doc (.element "item" [("id", "7")] [.text "hi"])
      [.Element "item", .Element "nope"] (by decide)).2 rfl).2 "nope" rfl

/-- C4: for a path-extraction column, any extraction failure is fully
recovered by a configured default — the resolved value is the default, with
no distinction between failure kinds — while without a default the error is
propagated annotated with the document identity; in particular `Text` mode
on a node without text content fails with `NoTextContent`, and a configured
default then resolves to the default. -/
theorem c4_default_fallback (xml el : XMLNode) (docId : String) (pt : PathType)
    (d : String) (e : ExtractionError) (parts : List PathPart) :
    (extract_from_xml xml pt = some (.error e) →
        resolveColumn xml docId (.ExtractXmlPath pt (some d)) = some (.ok d)) ∧
    (extract_from_xml xml pt = some (.error e) →
        resolveColumn xml docId (.ExtractXmlPath pt none) = some (.error ⟨docId, e⟩)) ∧
    (followPath xml parts (Path.parts_to_string parts) = .ok el → get_text el = none →
        extract_from_xml xml (.PathText parts) =
          some (.error (.NoTextContent (Path.parts_to_string parts))) ∧
        resolveColumn xml docId (.ExtractXmlPath (.PathText parts) (some d)) = some (.ok d)) := by
  refine ⟨?_, ?_, ?_⟩
  · intro h
    simp [resolveColumn, h]
  · intro h
    simp [resolveColumn, h]
  · intro hok htext
    have hex : extract_from_xml xml (.PathText parts) =
        some (.error (.NoTextContent (Path.parts_to_string parts))) := by
      rw [extract_text_eq, hok]
      simp only [htext]
    exact ⟨hex, by simp [resolveColumn, hex]⟩

/-- Witness for C4 on `<root><item id="7">hi</item></root>`: path `empty`
does not exist, so `Text` extraction fails; with default `"dflt"` the column
resolves to `"dflt"`, without a default the error carries the document
identity `"doc.xml"`; and `Text` on `<a/>` (no text content) with a default
also resolves to the default. -/
theorem c4_default_fallback_witness :
    resolveColumn C7doc "doc.xml"
      (.ExtractXmlPath (.PathText [.Element "missing"]) (some "dflt")) = some (.ok "dflt") ∧
    resolveColumn C7doc "doc.xml"
      (.ExtractXmlPath (.PathText [.Element "missing"]) none) =
      some (.error ⟨"doc.xml", .NodeNotFound "missing" (Path.parts_to_string [.Element "missing"])⟩) ∧
    resolveColumn (.element "a" [] []) "doc.xml"
      (.ExtractXmlPath (.PathText []) (some "dflt")) = some (.ok "dflt") := by
  refine ⟨?_, ?_, ?_⟩
  · exact (c4_default_fallback C7doc C7doc "doc.xml" (.PathText [.Element "missing"]) "dflt"
      (.NodeNotFound "missing" (Path.parts_to_string [.Element "missing"])) []).1 rfl
  · exact (c4_default_fallback C7doc C7doc "doc.xml" (.PathText [.Element "missing"]) "dflt"
      (.NodeNotFound "missing" (Path.parts_to_string [.Element "missing"])) []).2.1 rfl
  · exact ((c4_default_fallback (.element "a" [] []) (.element "a" [] []) "doc.xml"
      (.PathText []) "dflt" .EmptyPath []).2.2 rfl rfl).2

/-- C10: extraction applied to any path produced by `parse` never panics
(the `Attr`-mode slice that drops the last segment is never applied to an
empty segment list) and never reaches the defensive `EmptyPath` branch, for
every document and every mode. -/
theorem c10_no_panic_no_empty_path (s : String) (parts : List PathPart) (pt : PathType)
    (xml : XMLNode) (hp : Path.tryFrom s = .ok parts) (hpt : pt.parts = parts) :
    ∃ r, extract_from_xml xml pt = some r ∧ r ≠ .error .EmptyPath := by
  subst hpt
  have hne : pt.parts ≠ [] := tryFrom_parts_ne_nil s _ hp
  cases pt with
  | PathText q =>
    rw [extract_text_eq]
    cases hf : followPath xml q (Path.parts_to_string q) with
    | error e =>
      exact ⟨.error e, rfl, by
        intro h
        rw [show e = ExtractionError.EmptyPath from by injection h] at hf
        exact followPath_ne_emptyPath q xml _ hf⟩
    | ok element =>
      cases ht : get_text element with
      | some t => exact ⟨.ok t, by simp [ht], by simp⟩
      | none => exact ⟨.error (.NoTextContent (Path.parts_to_string q)), by simp [ht], by simp⟩
  | PathLen q =>
    rw [extract_len_eq]
    cases hf : followPath xml q (Path.parts_to_string q) with
    | error e =>
      exact ⟨.error e, rfl, by
        intro h
        rw [show e = ExtractionError.EmptyPath from by injection h] at hf
        exact followPath_ne_emptyPath q xml _ hf⟩
    | ok element => exact ⟨.ok (natToString element.children.length), rfl, by simp⟩
  | PathAttr q =>
    have hq : q ≠ [] := by simpa [PathType.parts] using hne
    rw [extract_attr_eq xml q hq]
    cases hf : followPath xml q.dropLast (Path.parts_to_string q) with
    | error e =>
      exact ⟨.error e, rfl, by
        intro h
        rw [show e = ExtractionError.EmptyPath from by injection h] at hf
        exact followPath_ne_emptyPath q.dropLast xml _ hf⟩
    | ok element =>
      cases hl : q.getLast? with
      | none => exact absurd (List.getLast?_eq_none_iff.mp hl) hq
      | some last =>
        cases last with
        | Element name =>
          cases ha : element.attributes.lookup name with
          | some v => exact ⟨.ok v, by simp [ha], by simp⟩
          | none =>
            exact ⟨.error (.AttributeNotFound (Path.parts_to_string q)), by simp [ha], by simp⟩
        | Index j => exact ⟨.error .IndexUsedAsAttributeName, rfl, by simp⟩

/-- Witness for C10: the parsed path `"a.0"` in `Attr` mode on
`<root><item id="7">hi</item></root>` does not panic and does not produce
`EmptyPath`. -/
theorem c10_no_panic_no_empty_path_witness :
    ∃ r, extract_from_xml C7doc (.PathAttr [.Element "a", .Index 0]) = some r ∧
      r ≠ .error .EmptyPath :=
  c10_no_panic_no_empty_path "a.0" [.Element "a", .Index 0]
    (.PathAttr [.Element "a", .Index 0]) C7doc rfl rfl

/-- C9: the run emits only fully resolved rows — every emitted row has one
value per configured column — and the first unrecovered `ResolveError`
aborts the entire run: the emitted rows are exactly those of the documents
preceding the failing one, and no later document contributes anything. -/
theorem c9_abort_entire_run (cols : List ColumnType) (docs : List (String × XMLNode))
    (rows : List (List String)) :
    (∀ err, runDocs cols docs = some (rows, some err) →
        (∀ row ∈ rows, row.length = cols.length) ∧
        ∃ pre d post, docs = pre ++ d :: post ∧ pre.length = rows.length ∧
          resolveRow d.1 d.2 cols = some (.error err)) ∧
    (runDocs cols docs = some (rows, none) →
        rows.length = docs.length ∧ ∀ row ∈ rows, row.length = cols.length) := by
  induction docs generalizing rows with
  | nil =>
    constructor
    · intro err h
      simp [runDocs] at h
    · intro h
      simp only [runDocs, Option.some.injEq, Prod.mk.injEq] at h
      obtain ⟨h1, _⟩ := h
      subst h1
      simp
  | cons dc rest ih =>
    obtain ⟨docId, xml⟩ := dc
    constructor
    · intro err h
      simp only [runDocs] at h
      cases h1 : resolveRow docId xml cols with
      | none => rw [h1] at h; cases h
      | some r1 =>
        rw [h1] at h
        cases r1 with
        | error e =>
          simp only [Option.some.injEq, Prod.mk.injEq] at h
          obtain ⟨hrows, herr⟩ := h
          subst hrows
          refine ⟨by simp, [], (docId, xml), rest, rfl, rfl, ?_⟩
          rw [h1, herr]
        | ok row =>
          cases h2 : runDocs cols rest with
          | none => rw [h2] at h; cases h
          | some pr =>
            obtain ⟨rows', err'⟩ := pr
            rw [h2] at h
            simp only [Option.some.injEq, Prod.mk.injEq] at h
            obtain ⟨hrows, herr⟩ := h
            subst hrows
            subst herr
            obtain ⟨hlen, pre, d, post, hdocs, hplen, hres⟩ := (ih rows').1 err h2
            refine ⟨?_, (docId, xml) :: pre, d, post, by simp [hdocs], by simp [hplen], hres⟩
            intro r hr
            rcases List.mem_cons.mp hr with hr | hr
            · subst hr
              exact resolveRow_ok_length docId xml cols r h1
            · exact hlen r hr
    · intro h
      simp only [runDocs] at h
      cases h1 : resolveRow docId xml cols with
      | none => rw [h1] at h; cases h
      | some r1 =>
        rw [h1] at h
        cases r1 with
        | error e =>
          simp only [Option.some.injEq, Prod.mk.injEq] at h
          exact absurd h.2 (by simp)
        | ok row =>
          cases h2 : runDocs cols rest with
          | none => rw [h2] at h; cases h
          | some pr =>
            obtain ⟨rows', err'⟩ := pr
            rw [h2] at h
            simp only [Option.some.injEq, Prod.mk.injEq] at h
            obtain ⟨hrows, herr⟩ := h
            subst hrows
            subst herr
            obtain ⟨hlen, hall⟩ := (ih rows').2 h2
            refine ⟨by simp [hlen], ?_⟩
            intro r hr
            rcases List.mem_cons.mp hr with hr | hr
            · subst hr
              exact resolveRow_ok_length docId xml cols r h1
            · exact hall r hr

/-- The single column of the C9 witness run: `Text` extraction at `item`,
with no default. -/
def c9col : ColumnType := .ExtractXmlPath (.PathText [.Element "item"]) none

/-- A document with no `item` child, failing the C9 witness column. -/
def c9emptyDoc : XMLNode := .element "e" [] []

/-- The three-document input of the C9 witness run: the second document
fails, the third is never processed. -/
def c9docs : List (String × XMLNode) := [("d1", C7doc), ("d2", c9emptyDoc), ("d3", C7doc)]

/-- Witness for C9: in the concrete run over `c9docs` the first document's
row `["hi"]` is emitted, the failure on document `d2` aborts the run, and
document `d3` contributes nothing. -/
theorem c9_abort_entire_run_witness :
    (∀ row ∈ [["hi"]], row.length = [c9col].length) ∧
    ∃ pre d post, c9docs = pre ++ d :: post ∧ pre.length = [["hi"]].length ∧
      resolveRow d.1 d.2 [c9col] =
        some (.error ⟨"d2", .NodeNotFound "item" (Path.parts_to_string [.Element "item"])⟩) :=
  (c9_abort_entire_run [c9col] c9docs [["hi"]]).1
    ⟨"d2", .NodeNotFound "item" (Path.parts_to_string [.Element "item"])⟩ rfl

theorem tryFrom_partsToChars (p : List PathPart) (hne : p ≠ [])
    (hnames : ∀ s, PathPart.Element s ∈ p → fromStrUsize s.data = none ∧ '.' ∉ s.data)
    (hidx : ∀ i, PathPart.Index i ∈ p → i < 2 ^ 64) :
    (splitDot (partsToChars p)).map classifyPart = p := by
  induction p with
  | nil => exact absurd rfl hne
  | cons x xs ih =>
    cases xs with
    | nil =>
      have hnd : '.' ∉ renderPart x :=
        renderPart_no_dot x (fun s hs => (hnames s (by simp [hs])).2)
      rw [show partsToChars [x] = renderPart x from rfl, splitDot_no_dot _ hnd]
      simp only [List.map_cons, List.map_nil]
      rw [classify_renderPart x (fun s hs => (hnames s (by simp [hs])).1)
        (fun i hi => hidx i (by simp [hi]))]
    | cons y rest =>
      have hnd : '.' ∉ renderPart x :=
        renderPart_no_dot x (fun s hs => (hnames s (by simp [hs])).2)
      rw [show partsToChars (x :: y :: rest) =
        renderPart x ++ '.' :: partsToChars (y :: rest) from rfl]
      rw [splitDot_append _ _ hnd]
      simp only [List.map_cons]
      rw [classify_renderPart x (fun s hs => (hnames s (by simp [hs])).1)
        (fun i hi => hidx i (by simp [hi]))]
      rw [ih (by simp) (fun s hs => hnames s (List.mem_cons_of_mem _ hs))
        (fun i hi => hidx i (List.mem_cons_of_mem _ hi))]

/-- C5 (counterexample): the round trip `parse(serialize(p)) = p` fails for
an `ElementName` value that is not parseable as an integer but contains a
dot: `[ElementName "a.b"]` serializes to `"a.b"`, which parses back as two
segments, not one. -/
theorem c5_counterexample :
    Path.parts_to_string [PathPart.Element "a.b"] = "a.b" ∧
    fromStrUsize "a.b".data = none ∧
    Path.tryFrom "a.b" = .ok [PathPart.Element "a", PathPart.Element "b"] ∧
    ([PathPart.Element "a", PathPart.Element "b"] : List PathPart) ≠ [PathPart.Element "a.b"] :=
  ⟨rfl, rfl, rfl, by decide⟩

/-- C5 (amended): `serialize` joins segment renderings with `'.'`, rendering
`Index` as decimal digits and `ElementName` as its literal text, and
`parse(serialize(p)) = p` holds for every non-empty path `p` whose
`ElementName` values are not parseable as integers and contain no `'.'`
character, with arbitrary `Index` values (any `usize`, i.e. below `2 ^ 64`). -/
theorem c5_roundtrip_amended (p : List PathPart) (hne : p ≠ [])
    (hnames : ∀ s, PathPart.Element s ∈ p → fromStrUsize s.data = none ∧ '.' ∉ s.data)
    (hidx : ∀ i, PathPart.Index i ∈ p → i < 2 ^ 64) :
    Path.tryFrom (Path.parts_to_string p) = .ok p := by
  show Except.ok ((splitDot (Path.parts_to_string p).data).map classifyPart) = .ok p
  rw [show (Path.parts_to_string p).data = partsToChars p from rfl,
    tryFrom_partsToChars p hne hnames hidx]

/-- Witness for C5 (amended) at the concrete path `[ElementName "ab",
Index 10]`, which serializes to `"ab.10"` and parses back to itself. -/
theorem c5_roundtrip_amended_witness :
    Path.parts_to_string [PathPart.Element "ab", PathPart.Index 10] = "ab.10" ∧
    Path.tryFrom "ab.10" = .ok [PathPart.Element "ab", PathPart.Index 10] := by
  refine ⟨rfl, ?_⟩
  have h := c5_roundtrip_amended [PathPart.Element "ab", PathPart.Index 10] (by decide)
    (fun s hs => by
      simp only [List.mem_cons, List.not_mem_nil, or_false] at hs
      rcases hs with hs | hs
      · cases hs
        exact ⟨rfl, by decide⟩
      · cases hs)
    (fun i hi => by
      simp only [List.mem_cons, List.not_mem_nil, or_false] at hi
      rcases hi with hi | hi
      · cases hi
      · cases hi
        decide)
  rw [show ("ab.10" : String) =
    Path.parts_to_string [PathPart.Element "ab", PathPart.Index 10] from rfl]
  exact h
